import Mathlib

/-!
Verification development for the LexiClear legal-document pipeline
(segmenter / retriever / verifier).

The JavaScript sources are shallowly embedded:

* strings are `List Char` (`Str`); all inputs in this code base are ASCII,
  so the ASCII readings of `\s`, `\w`, `toLowerCase` are faithful;
* the regular expressions of the source (`CHUNK_ID_REGEX`, the quoted-snippet
  extractors, the sentence splitters, the paragraph splitter) are hand-compiled
  to executable matchers with the same backtracking semantics, including the
  statefulness of a `/g` regex `lastIndex`;
* floating-point arithmetic is modelled over `ℝ` (cosine similarity) or over an
  arbitrary linear-ordered scalar where only comparisons matter (retrieval);
* the external embedding capability (an HTTP call in the source) is a function
  parameter; a call counter is threaded so that the number of requests is
  observable;
* file-system persistence (`saveBundle`, logging) and fields no claim touches
  (`embedding_id` fingerprints, bundle metadata) are outside the model.

All recursive definitions are structural (fuel-based where needed) so that the
kernel can evaluate them on concrete inputs.
-/

abbrev Str := List Char

namespace LexiClear

open List

/-! ### Character classes and basic string operations (ASCII readings) -/

/-- JS `\s` restricted to ASCII: space, tab, LF, CR, VT, FF. -/
def isWs (c : Char) : Bool :=
  c = ' ' || c = '\t' || c = '\n' || c = '\r' || c = '\x0b' || c = '\x0c'

def isDigitC (c : Char) : Bool := '0' ≤ c && c ≤ '9'

def isUpperC (c : Char) : Bool := 'A' ≤ c && c ≤ 'Z'

def isLowerC (c : Char) : Bool := 'a' ≤ c && c ≤ 'z'

def isAlphaC (c : Char) : Bool := isUpperC c || isLowerC c

/-- JS `\w`: `[A-Za-z0-9_]`. -/
def isWordC (c : Char) : Bool := isAlphaC c || isDigitC c || c = '_'

/-- ASCII `toLowerCase`. -/
def toLowerC (c : Char) : Char :=
  if isUpperC c then Char.ofNat (c.toNat + 32) else c

def lowerStr (s : Str) : Str := s.map toLowerC

/-- JS `String.prototype.trim`. -/
def trimStr (s : Str) : Str :=
  ((s.dropWhile isWs).reverse.dropWhile isWs).reverse

/-- Worker for `collapseWs`; the flag records whether we are inside a
whitespace run that has already emitted its single replacement space. -/
def collapseWsGo : Bool → Str → Str
  | _, [] => []
  | inWs, c :: rest =>
    if isWs c then
      if inWs then collapseWsGo true rest else ' ' :: collapseWsGo true rest
    else c :: collapseWsGo false rest

/-- JS `s.replace(/\s+/g, ' ')`: every maximal whitespace run becomes one space. -/
def collapseWs (s : Str) : Str := collapseWsGo false s

/-- `verifier.js` `normalizeText`: collapse whitespace, trim, lowercase. -/
def normalizeText (s : Str) : Str := lowerStr (trimStr (collapseWs s))

/-- `startsWith s pat`: `pat` occurs at the head of `s`. -/
def startsWith : Str → Str → Bool
  | _, [] => true
  | [], _ :: _ => false
  | c :: s, p :: ps => c = p && startsWith s ps

/-- Scan of `findSubFrom`, threading the absolute index. -/
def findSubGo (pat : Str) : Str → ℕ → Option ℕ
  | [], i => if startsWith [] pat then some i else none
  | c :: t, i => if startsWith (c :: t) pat then some i else findSubGo pat t (i + 1)

/-- JS `s.indexOf(pat, start)` (`none` models `-1`); all uses in the source
have a non-empty `pat`. -/
def indexOfFrom (s pat : Str) (start : ℕ) : Option ℕ :=
  findSubGo pat (s.drop start) start

/-- JS `s.includes(pat)` for non-empty `pat`. -/
def containsSub (s pat : Str) : Bool := (findSubGo pat s 0).isSome

/-! ### Segmenter (`mcp.js`) -/

/-- `mcp.js` `estimateTokens`: `0` on empty text, else `max(1, ceil(len/4))`. -/
def estimateTokens (text : Str) : ℕ :=
  if text = [] then 0 else max 1 ((text.length + 3) / 4)

/-- JS `text.replace(/\r\n/g, '\n')`. -/
def replaceCRLF : Str → Str
  | '\r' :: '\n' :: rest => '\n' :: replaceCRLF rest
  | c :: rest => c :: replaceCRLF rest
  | [] => []

/-- Index of the last `'\n'` in `run`, if any. -/
def lastNL (run : Str) : Option ℕ :=
  match run.reverse.findIdx? (fun c => c = '\n') with
  | some j => some (run.length - 1 - j)
  | none => none

/-- Split on the regex `/\n\s*\n/` (the separator is a `'\n'`, then the
greedy-maximal whitespace prefix that still ends right before another `'\n'`).
Fuel-structural; called with fuel `length + 1` so fuel never runs out. -/
def splitParasGo : ℕ → Str → Str → List Str
  | 0, acc, _ => [acc.reverse]
  | _ + 1, acc, [] => [acc.reverse]
  | fuel + 1, acc, '\n' :: rest =>
    let run := rest.takeWhile isWs
    (match lastNL run with
     | some k => acc.reverse :: splitParasGo fuel [] (rest.drop (k + 1))
     | none => splitParasGo fuel ('\n' :: acc) rest)
  | fuel + 1, acc, c :: rest => splitParasGo fuel (c :: acc) rest

def splitParas (s : Str) : List Str := splitParasGo (s.length + 1) [] s

/-- Lookahead class of the `mcp.js` sentence splitter:
`[A-Z0-9"“‘\[]`. -/
def sentBoundaryNext (c : Char) : Bool :=
  isUpperC c || isDigitC c || c = '"' || c = '“' || c = '‘' || c = '['

def isPuncOpt (p : Option Char) : Bool :=
  match p with
  | some c => c = '.' || c = '!' || c = '?'
  | none => false

def isNonWsOpt (p : Option Char) : Bool :=
  match p with
  | some c => !isWs c
  | none => false

/-- Split of the whitespace-collapsed text on
`/(?<=\S[.!?])\s+(?=[A-Z0-9"“‘\[]|$)/g`.  After `collapseWs`+`trim` every
whitespace run is a single interior space, so the separator is one space whose
two preceding characters are non-space then `.!?` and whose next character is
in the lookahead class (the `$` alternative is kept for fidelity).  `p2`/`p1`
are the last two characters consumed. -/
def splitSentGo : Option Char → Option Char → Str → Str → List Str
  | _, _, acc, [] => [acc.reverse]
  | p2, p1, acc, c :: rest =>
    if c = ' ' && isPuncOpt p1 && isNonWsOpt p2 &&
        (match rest with
         | [] => true
         | r :: _ => sentBoundaryNext r) then
      acc.reverse :: splitSentGo p1 (some c) [] rest
    else
      splitSentGo p1 (some c) (c :: acc) rest

/-- `mcp.js` `splitIntoSentences`. -/
def splitIntoSentences (text : Str) : List Str :=
  let normalized := trimStr (collapseWs (replaceCRLF text))
  if normalized = [] then []
  else ((splitSentGo none none [] normalized).map trimStr).filter (fun s => s ≠ [])

structure RawChunk where
  text : Str
  start_char : ℕ
  end_char : ℕ
deriving DecidableEq, Repr

structure ChunkOptions where
  targetTokens : Option ℕ := none
  overlapTokens : Option ℕ := none

/-- JS `options.x || DEFAULT`: an absent *or zero* option falls back to the
default (`0` is falsy). -/
def resolveOpt (v : Option ℕ) (d : ℕ) : ℕ :=
  match v with
  | some n => if n = 0 then d else n
  | none => d

/-- Join sentences with single spaces (JS `arr.join(' ')`). -/
def joinSp : List Str → Str
  | [] => []
  | [s] => s
  | s :: rest => s ++ ' ' :: joinSp rest

/-- The overlap suffix computation inside `flushChunk`: walk the sentences of
the just-closed chunk from the end, keeping sentences while the kept token
count stays within `overlapTokens` (always keeping at least one).  Returns the
kept sentences (in order) and their token count. -/
def overlapKeepGo (overlapTokens : ℕ) : List Str → List Str → ℕ → List Str × ℕ
  | [], keep, kt => (keep, kt)
  | s :: rest, keep, kt =>
    let t := estimateTokens s
    if kt + t > overlapTokens && keep.length > 0 then (keep, kt)
    else overlapKeepGo overlapTokens rest (s :: keep) (kt + t)

def overlapKeep (sents : List Str) (overlapTokens : ℕ) : List Str × ℕ :=
  overlapKeepGo overlapTokens sents.reverse [] 0

/-- State of the chunk-building walk in `chunkText` (the mutable locals of the
JS paragraph loop).  `curStart` is meaningless while `curSents = []` (JS
`null`). -/
structure SegState where
  chunks : List RawChunk
  curSents : List Str
  curStart : ℕ
  curTokens : ℕ
  globalIdx : ℕ

def lastChunkEnd (chunks : List RawChunk) : ℕ :=
  match chunks.getLast? with
  | some c => c.end_char
  | none => 0

/-- `flushChunk` of `chunkText`: emit the current chunk, and when
`finalizeOverlap` and overlap is enabled, seed the next chunk with the overlap
suffix, adjusting its start offset to where the suffix text first occurs
inside the emitted chunk text (falling back to the emitted end offset). -/
def flushChunk (overlapTokens : ℕ) (finalizeOverlap : Bool) (st : SegState) : SegState :=
  if st.curSents.isEmpty then st
  else
    let chunkTx := trimStr (joinSp st.curSents)
    let startChar := st.curStart
    let endChar := startChar + chunkTx.length
    let chunks := st.chunks ++ [⟨chunkTx, startChar, endChar⟩]
    if finalizeOverlap && overlapTokens > 0 then
      let kp := overlapKeep st.curSents overlapTokens
      let keepText := joinSp kp.1
      let newStart :=
        match indexOfFrom chunkTx keepText 0 with
        | some idx => startChar + idx
        | none => endChar
      { chunks := chunks, curSents := kp.1, curStart := newStart,
        curTokens := kp.2, globalIdx := st.globalIdx }
    else
      { chunks := chunks, curSents := [], curStart := 0, curTokens := 0,
        globalIdx := st.globalIdx }

/-- The sentence walk of `chunkText`: locate each sentence in the *original*
document text starting at the running cursor (with the source's fallbacks),
accumulate it, and flush with overlap when the token target is reached. -/
def segSentences (text : Str) (targetTokens overlapTokens : ℕ) :
    List Str → SegState → SegState
  | [], st => st
  | sent :: rest, st =>
    let sentTokens := estimateTokens sent
    let absIdx :=
      match indexOfFrom text sent st.globalIdx with
      | some i => i
      | none =>
        match indexOfFrom text sent 0 with
        | some i => i
        | none => st.globalIdx
    let st1 := if st.curSents.isEmpty then { st with curStart := absIdx } else st
    let st2 := { st1 with curSents := st1.curSents ++ [sent],
                          curTokens := st1.curTokens + sentTokens }
    if st2.curTokens ≥ targetTokens then
      let st3 := flushChunk overlapTokens true st2
      segSentences text targetTokens overlapTokens rest
        { st3 with globalIdx := lastChunkEnd st3.chunks }
    else
      segSentences text targetTokens overlapTokens rest
        { st2 with globalIdx := absIdx + sent.length }

/-- One paragraph of the `chunkText` walk; returns the accumulated chunks and
the updated search cursor. -/
def segParagraph (text : Str) (targetTokens overlapTokens : ℕ)
    (chunks : List RawChunk) (globalIdx : ℕ) (para : Str) :
    List RawChunk × ℕ :=
  let sentences := splitIntoSentences para
  let st := segSentences text targetTokens overlapTokens sentences
    { chunks := chunks, curSents := [], curStart := 0, curTokens := 0,
      globalIdx := globalIdx }
  if st.curSents.isEmpty then (st.chunks, st.globalIdx)
  else
    let st2 := flushChunk overlapTokens false st
    (st2.chunks, lastChunkEnd st2.chunks)

/-- The final merge pass of `chunkText`.  The JS loop appends each chunk to
`merged`, folding a chunk whose token estimate is under the threshold into
`merged`'s last element instead (`merged[len-1].text += ' ' + c.text;
merged[len-1].end_char = c.end_char`).  Since only the most recently pushed
chunk is ever modified, we carry that chunk (`cur`) separately; the guard
`merged.length > 0` of the source corresponds to the `mergeSmall` wrapper
passing the first chunk in as `cur` unconditionally.

NOTE the threshold in the source is
`Math.max(50, Math.floor(DEFAULT_CHUNK_TOKENS / 5))` — it uses the module
constant `500`, not the caller's `targetTokens`. -/
def mergeSmallGo (cur : RawChunk) : List RawChunk → List RawChunk
  | [] => [cur]
  | c :: rest =>
    if estimateTokens c.text < max 50 (500 / 5) then
      mergeSmallGo
        { cur with text := cur.text ++ ' ' :: c.text, end_char := c.end_char } rest
    else cur :: mergeSmallGo c rest

def mergeSmall : List RawChunk → List RawChunk
  | [] => []
  | c :: rest => mergeSmallGo c rest

/-- `mcp.js` `chunkText`. -/
def chunkText (text : Str) (options : ChunkOptions) : List RawChunk :=
  let targetTokens := resolveOpt options.targetTokens 500
  let overlapTokens := resolveOpt options.overlapTokens 50
  if trimStr text = [] then []
  else
    let normalized := replaceCRLF text
    let paragraphs := ((splitParas normalized).map trimStr).filter (fun p => p ≠ [])
    let res := paragraphs.foldl
      (fun (p : List RawChunk × ℕ) para =>
        segParagraph text targetTokens overlapTokens p.1 p.2 para)
      ([], 0)
    mergeSmall res.1

/-! ### Concrete documents used in claim evaluations -/

/-- A document whose first sentence contains a double space: the
whitespace-collapsed sentence `"Hello there."` does not occur verbatim at the
start of the document, so the offset search finds its later duplicate. -/
def c2doc : Str := "Hello  there. Hello there.".toList

/-- Two paragraphs: a short opening sentence, then a single 400-character
sentence (100 estimated tokens). -/
def c7doc : Str := "Start here.\n\n".toList ++ List.replicate 399 'a' ++ ['.']

/-! ### Verifier (`verifier.js`)

The verifier reads only `chunk_id` and `text` of each chunk; a typed bundle
with a `chunks` list models exactly the bundles "that have a chunks array"
(the JS guard for malformed bundles is outside the model). -/

structure VChunk where
  chunk_id : Str
  text : Str
deriving DecidableEq, Repr

structure VBundle where
  chunks : List VChunk
deriving DecidableEq, Repr

def defaultLegalKeywords : List Str :=
  ["terminate", "termination", "notice", "indemnify", "indemnity", "waive",
   "warranty", "liability", "liable", "penalty", "breach", "breaches",
   "governing law", "jurisdiction", "confidential", "confidentiality",
   "obligation", "rights", "termination", "renewal", "notice period",
   "non-compete", "severability", "assignment", "arbitration"].map String.toList

/-- `DEFAULT_OPTIONS` of `verifier.js`, merged with caller overrides by the
spread `{...DEFAULT_OPTIONS, ...opts}`; a fully populated record models the
merged object.  The sentence-splitter regex option is never overridden at any
call site and is embedded as the fixed splitter `splitSentencesV`. -/
structure VOptions where
  normalizedMatchMinLen : ℕ := 30
  legalKeywords : List Str := defaultLegalKeywords
  failOnUnknownChunkId : Bool := false

/-- Characters of the class `[A-Za-z0-9._:-]` in `CHUNK_ID_REGEX`. -/
def isIdC (c : Char) : Bool :=
  isAlphaC c || isDigitC c || c = '.' || c = '_' || c = ':' || c = '-'

def wordBoundaryAfter : Str → Bool
  | [] => true
  | c :: _ => !isWordC c

/-- Backtracking for the tail `([A-Za-z0-9._:-]+)-chunk-(\d+)\b` of
`CHUNK_ID_REGEX` at a fixed position: the greedy `X+` part is tried from the
longest candidate length down (`xl + 1`.. `1`); for each, `-chunk-` must
follow, then the maximal digit run (a shorter digit run can never satisfy the
trailing `\b`, since the boundary would fall between two digits), then a word
boundary.  Returns the matched tail length. -/
def chunkIdTailGo (rest : Str) : ℕ → Option ℕ
  | 0 => none
  | xl + 1 =>
    if startsWith (rest.drop (xl + 1)) "-chunk-".toList then
      let ds := (rest.drop (xl + 1 + 7)).takeWhile isDigitC
      if ds.length > 0 && wordBoundaryAfter (rest.drop (xl + 1 + 7 + ds.length)) then
        some (xl + 1 + 7 + ds.length)
      else chunkIdTailGo rest xl
    else chunkIdTailGo rest xl

/-- A `CHUNK_ID_REGEX` match attempt with the subject suffix `t` starting at
the candidate position; returns the match length.  The leading `\b` is checked
by the caller. -/
def matchChunkIdHere (t : Str) : Option ℕ :=
  if startsWith t "bundle-".toList then
    let rest := t.drop 7
    match chunkIdTailGo rest (rest.takeWhile isIdC).length with
    | some n => some (7 + n)
    | none => none
  else none

/-- Leftmost-match scan for `CHUNK_ID_REGEX`: `prev` is the character before
the current position (for the leading `\b`; the first matched character is the
word character `b`, so the boundary holds iff `prev` is absent or non-word). -/
def findChunkIdGo (prev : Option Char) : Str → ℕ → Option (ℕ × ℕ)
  | [], _ => none
  | c :: t, i =>
    if (match prev with | none => true | some p => !isWordC p) then
      match matchChunkIdHere (c :: t) with
      | some n => some (i, i + n)
      | none => findChunkIdGo (some c) t (i + 1)
    else findChunkIdGo (some c) t (i + 1)

/-- One `exec`/`test` of the global regex `CHUNK_ID_REGEX` starting at
`lastIndex = start`: the candidate match positions are `>= start`, but the
leading `\b` inspects the character before the position in the full subject. -/
def findChunkIdFrom (s : Str) (start : ℕ) : Option (ℕ × ℕ) :=
  findChunkIdGo
    (if start = 0 then none else some ((s.take start).getLastD ' '))
    (s.drop start) start

/-- Drain loop of `extractChunkIds` (`while exec !== null`); each match ends
strictly after `lastIndex`, so `length + 1` fuel suffices.  After the drain
the JS regex object's `lastIndex` is back at `0`. -/
def extractChunkIdsGo (s : Str) : ℕ → ℕ → List Str → List Str
  | 0, _, acc => acc.reverse
  | fuel + 1, li, acc =>
    match findChunkIdFrom s li with
    | some (b, e) => extractChunkIdsGo s fuel e ((s.drop b).take (e - b) :: acc)
    | none => acc.reverse

/-- First-seen-order deduplication (JS `Set` insertion order). -/
def dedupGo (seen : List Str) : List Str → List Str
  | [] => []
  | x :: rest =>
    if x ∈ seen then dedupGo seen rest else x :: dedupGo (x :: seen) rest

/-- `verifier.js` `extractChunkIds`. -/
def extractChunkIds (text : Str) : List Str :=
  dedupGo [] (extractChunkIdsGo text (text.length + 1) 0 [])

/-- Suffix after the first occurrence of `q`, if any. -/
def afterFirst (q : Char) : Str → Option Str
  | [] => none
  | c :: t => if c = q then some t else afterFirst q t

/-- Repeated `exec` of `/q([^q]{5,500})q/g` for one quote character `q`:
scan to the next quote; the run of non-quote characters after it is the only
candidate content (backtracking cannot create a closing quote), so it matches
iff its length lies in `[5, 500]` and a closing quote follows; on failure the
closing quote is re-tried as a new opening quote.  Each step consumes at least
one character, so `length + 1` fuel suffices. -/
def quotedGo (q : Char) : ℕ → Str → List Str
  | 0, _ => []
  | fuel + 1, s =>
    match afterFirst q s with
    | none => []
    | some afterOpen =>
      let content := afterOpen.takeWhile (fun c => c ≠ q)
      match afterOpen.drop content.length with
      | [] => []
      | _ :: tail =>
        if 5 ≤ content.length && content.length ≤ 500 then
          content :: quotedGo q fuel tail
        else quotedGo q fuel (afterOpen.drop content.length)

/-- `verifier.js` `extractQuotedSnippets`: all double-quoted spans, then all
single-quoted spans. -/
def extractQuotedSnippets (text : Str) : List Str :=
  quotedGo '"' (text.length + 1) text ++ quotedGo '\'' (text.length + 1) text

structure SnipMatch where
  matched : Bool
  match_type : Str
deriving DecidableEq, Repr

/-- `verifier.js` `doesSnippetMatchChunk`; `minLen` is
`options.normalizedMatchMinLen`, with the JS `|| 30` fallback on the falsy
value `0`. -/
def doesSnippetMatchChunk (snippet chunkTx : Str) (minLen : ℕ) : SnipMatch :=
  if snippet = [] ∨ chunkTx = [] then ⟨false, "none".toList⟩
  else if containsSub chunkTx snippet then ⟨true, "exact".toList⟩
  else
    let nSnippet := normalizeText snippet
    let nChunk := normalizeText chunkTx
    if (if minLen = 0 then 30 else minLen) ≤ nSnippet.length ∧
        containsSub nChunk nSnippet then ⟨true, "normalized".toList⟩
    else
      let preLen := min 40 nSnippet.length
      if 12 ≤ preLen ∧ containsSub nChunk (nSnippet.take preLen) then
        ⟨true, "prefix".toList⟩
      else ⟨false, "none".toList⟩

/-- `mapChunksById` then `Map.get`: `Map.set` lets a later chunk with the same
id overwrite an earlier one, so lookup returns the last chunk with the id. -/
def lookupChunk (b : VBundle) (id : Str) : Option VChunk :=
  (b.chunks.filter (fun c => c.chunk_id = id)).getLast?

structure MatchedSnippet where
  chunk_id : Str
  snippet : Option Str
  matched : Bool
  match_type : Str
deriving DecidableEq, Repr

/-- First quoted snippet matching the chunk text, with its match type. -/
def firstSnippetMatch (snips : List Str) (chunkTx : Str) (minLen : ℕ) :
    Option (Str × Str) :=
  match snips with
  | [] => none
  | s :: rest =>
    let m := doesSnippetMatchChunk s chunkTx minLen
    if m.matched then some (s, m.match_type)
    else firstSnippetMatch rest chunkTx minLen

/-- The per-citation loop of `verifyResponseAgainstBundle` (step 4): returns
`(matched_snippets, missing_snippet_matches)` in citation order.  An id absent
from the bundle gets a failed `matched_snippets` entry but is NOT added to
`missing_snippet_matches` (it is already in `unknown_chunk_ids`). -/
def snippetPhase (b : VBundle) (resp : Str) (minLen : ℕ) :
    List Str → List MatchedSnippet × List Str
  | [] => ([], [])
  | chunkId :: rest =>
    let r := snippetPhase b resp minLen rest
    match lookupChunk b chunkId with
    | none => (⟨chunkId, none, false, "none".toList⟩ :: r.1, r.2)
    | some chunk =>
      match firstSnippetMatch (extractQuotedSnippets resp) chunk.text minLen with
      | some (snip, mt) => (⟨chunkId, some snip, true, mt⟩ :: r.1, r.2)
      | none =>
        let probe := (normalizeText chunk.text).take 120
        if 12 ≤ probe.length ∧ containsSub (normalizeText resp) probe then
          (⟨chunkId, some (chunk.text.take (min 200 chunk.text.length)), true,
             "chunk-prefix".toList⟩ :: r.1, r.2)
        else
          (⟨chunkId, none, false, "none".toList⟩ :: r.1, chunkId :: r.2)

/-- Split on the verifier's sentence regex
`/(?<=\.)\s+|(?<=\?)\s+|(?<=\!)\s+/`: a separator is a maximal whitespace run
whose preceding character is `.`, `?` or `!`.  Fuel-structural (each step
consumes at least one character). -/
def splitSentVGo : ℕ → Option Char → Str → Str → List Str
  | 0, _, acc, _ => [acc.reverse]
  | _ + 1, _, acc, [] => [acc.reverse]
  | fuel + 1, prev, acc, c :: rest =>
    if isWs c && isPuncOpt prev then
      let run := rest.takeWhile isWs
      acc.reverse ::
        splitSentVGo fuel (some ((c :: run).getLastD c)) [] (rest.drop run.length)
    else splitSentVGo fuel (some c) (c :: acc) rest

/-- Sentence list of the verifier: split, trim, drop empties. -/
def splitSentencesV (resp : Str) : List Str :=
  ((splitSentVGo (resp.length + 1) none [] resp).map trimStr).filter (fun s => s ≠ [])

/-- First legal keyword contained in the lowercased sentence, in list order
(the JS loop breaks at the first hit). -/
def firstKeyword : List Str → Str → Option Str
  | [], _ => none
  | kw :: rest, low =>
    if containsSub low kw then some kw else firstKeyword rest low

/-- The hallucination loop (step 5 of `verifyResponseAgainstBundle`).
`CHUNK_ID_REGEX` is a module-level `/g` regex, so `test` starts searching at
its persistent `lastIndex`: a hit sets `lastIndex` to the match end, a miss
resets it to `0`.  The preceding `extractChunkIds` drain left `lastIndex` at
`0`.  Flagged sentences are recorded as (sentence, triggering keyword); the
JS `reason` string around the keyword is presentational. -/
def hallucGo (keywords : List Str) : List Str → ℕ → List (Str × Str)
  | [], _ => []
  | sent :: rest, li =>
    match findChunkIdFrom sent li with
    | some (_, e) => hallucGo keywords rest e
    | none =>
      match firstKeyword keywords (lowerStr sent) with
      | some kw => (sent, kw) :: hallucGo keywords rest 0
      | none => hallucGo keywords rest 0

structure VStats where
  num_chunks_in_bundle : ℕ
  num_cited_chunks : ℕ
  citation_coverage : ℚ
deriving DecidableEq, Repr

/-- `VerificationResult` of `verifier.js`; `missing_snippet_matches` entries
(JS objects `{chunk_id}`) are stored as the ids. -/
structure VerificationResult where
  ok : Bool
  cited_chunks : List Str
  unknown_chunk_ids : List Str
  matched_snippets : List MatchedSnippet
  missing_snippet_matches : List Str
  potential_hallucinations : List (Str × Str)
  stats : VStats
deriving DecidableEq, Repr

/-- `verifier.js` `verifyResponseAgainstBundle` (the `await`-free body is
pure).  The early return fires when `failOnUnknownChunkId` is set and an
unknown citation exists; at that point the snippet/sentence phases have not
run and their lists are still the initial `[]`. -/
def verifyResponseAgainstBundle (b : VBundle) (responseText : Str)
    (opts : VOptions) : VerificationResult :=
  let cited := extractChunkIds responseText
  let unknown := cited.filter (fun id => !(lookupChunk b id).isSome)
  let numChunks := b.chunks.length
  if opts.failOnUnknownChunkId = true ∧ unknown ≠ [] then
    { ok := false, cited_chunks := cited, unknown_chunk_ids := unknown,
      matched_snippets := [], missing_snippet_matches := [],
      potential_hallucinations := [],
      stats := ⟨numChunks, cited.length, 0⟩ }
  else
    let sp := snippetPhase b responseText opts.normalizedMatchMinLen cited
    let halluc := hallucGo opts.legalKeywords (splitSentencesV responseText) 0
    let coverage : ℚ :=
      if 0 < cited.length then
        min 1 ((cited.length : ℚ) / (max 1 numChunks : ℚ))
      else 0
    { ok := if unknown ≠ [] ∨ sp.2 ≠ [] ∨ halluc ≠ [] then false else true,
      cited_chunks := cited, unknown_chunk_ids := unknown,
      matched_snippets := sp.1, missing_snippet_matches := sp.2,
      potential_hallucinations := halluc,
      stats := ⟨numChunks, cited.length, coverage⟩ }

/-- The fallback loop of `verifyQAAnswer`: for each retrieved id, try the
quoted snippets against that chunk, then the 120-character normalized chunk
prefix against the normalized answer. -/
def qaFallbackGo (b : VBundle) (answer : Str) (minLen : ℕ) :
    List Str → List (Str × Str × Str)
  | [] => []
  | rid :: rest =>
    match lookupChunk b rid with
    | none => qaFallbackGo b answer minLen rest
    | some chunk =>
      match firstSnippetMatch (extractQuotedSnippets answer) chunk.text minLen with
      | some (snip, mt) => (rid, snip, mt) :: qaFallbackGo b answer minLen rest
      | none =>
        let probe := (normalizeText chunk.text).take 120
        if 12 ≤ probe.length ∧ containsSub (normalizeText answer) probe then
          (rid, chunk.text.take 120, "chunk-prefix".toList) ::
            qaFallbackGo b answer minLen rest
        else qaFallbackGo b answer minLen rest

/-- Result of `verifyQAAnswer`: in JS the base result object is mutated in
place, its `ok` finally overwritten with `ok && cites_retrieved`; `result`
holds that final object.  `matched_from_retrieved` is `[]` when the JS code
leaves the field unset. -/
structure QAResult where
  result : VerificationResult
  retrieved_chunk_ids : List Str
  cited_retrieved_intersection : List Str
  cites_retrieved : Bool
  matched_from_retrieved : List (Str × Str × Str)
deriving DecidableEq, Repr

/-- `verifier.js` `verifyQAAnswer`.  `cited_chunks` is already duplicate-free,
so `[...new Set(cited)]` is `cited` itself; `Set.has` is list membership. -/
def verifyQAAnswer (b : VBundle) (answerText : Str)
    (retrievedChunkIds : List Str) (opts : VOptions) : QAResult :=
  let base := verifyResponseAgainstBundle b answerText opts
  let intersection :=
    base.cited_chunks.filter (fun x => decide (x ∈ retrievedChunkIds))
  let cites0 : Bool := intersection ≠ []
  let mfr :=
    if cites0 = false ∧ retrievedChunkIds ≠ [] then
      qaFallbackGo b answerText opts.normalizedMatchMinLen retrievedChunkIds
    else []
  let cites : Bool := cites0 || mfr ≠ []
  { result := { base with ok := base.ok && cites },
    retrieved_chunk_ids := retrievedChunkIds,
    cited_retrieved_intersection := intersection,
    cites_retrieved := cites,
    matched_from_retrieved := mfr }

/-! ### Concrete inputs for the verifier claims -/

/-- Answer whose second sentence cites a chunk id at its very beginning and
contains the trigger keyword `indemnify`. -/
def c4answer : Str :=
  "The penalty is set in bundle-a-chunk-001. bundle-a-chunk-001 says you must indemnify us.".toList

def c4sentence2 : Str :=
  "bundle-a-chunk-001 says you must indemnify us.".toList

def c4bundle : VBundle :=
  ⟨[⟨"bundle-a-chunk-001".toList, "The penalty is set in section two.".toList⟩]⟩

/-! ### Retriever (`ask.js` / `embeddings.js`)

Chunks carry an optional embedding vector.  Scalars are generic where only
field operations or comparisons matter; the theorems instantiate them at `ℝ`
(modelling the floating-point arithmetic exactly, with exact addition) or at
an executable scalar for witnesses. -/

structure Chunk (α : Type) where
  chunk_id : Str
  text : Str
  embedding : Option (List α)
deriving DecidableEq, Repr

/-- The accumulator loop of `ask.js` `cosineSimilarity`: the index runs over
`a`'s length; `b[i] || 0` is `0` past the end of `b` (a stored `0` is also
falsy and becomes `0`, the same value).  Returns `(dot, na, nb)`.  The JS
left-to-right float summation is modelled by exact field addition, which is
associative and commutative, so the fold direction is immaterial. -/
def cosAcc [Field α] : List α → List α → α × α × α
  | [], _ => (0, 0, 0)
  | x :: xs, [] =>
    let r := cosAcc xs ([] : List α)
    (r.1 + x * 0, r.2.1 + x * x, r.2.2 + 0 * 0)
  | x :: xs, y :: ys =>
    let r := cosAcc xs ys
    (r.1 + x * y, r.2.1 + x * x, r.2.2 + y * y)

/-- `ask.js` `cosineSimilarity`, with the square root as a parameter
(`Real.sqrt` at the instantiations used in the theorems): `0` when either
accumulated norm is zero, else `dot / (sqrt na * sqrt nb)`. -/
def cosineSimilarity [Field α] [DecidableEq α] (sqrt : α → α) (a b : List α) : α :=
  if (cosAcc a b).2.1 = 0 ∨ (cosAcc a b).2.2 = 0 then 0
  else (cosAcc a b).1 / (sqrt (cosAcc a b).2.1 * sqrt (cosAcc a b).2.2)

/-- `embeddings.js` `cosineSimilarity`: unequal-length vectors are first
truncated to the shorter length, then the same loop runs. -/
def cosineSimilarityE [Field α] [DecidableEq α] (sqrt : α → α) (a b : List α) : α :=
  cosineSimilarity sqrt (a.take (min a.length b.length)) (b.take (min a.length b.length))

/-- Modelled from the spec: the mathematical dot product of two vectors over
their common indices (for the `dot(a,b) / (||a|| * ||b||)` formula of the
spec, with a shorter vector zero-padded, padding changes neither dot nor
norms). -/
def specDot [Field α] (a b : List α) : α :=
  (List.zipWith (fun x y => x * y) a b).sum

/-- Modelled from the spec: the squared Euclidean norm over the full vector. -/
def specNormSq [Field α] (a : List α) : α := specDot a a

/-- The score of one chunk in `retrieveTopK`
(`c.embedding ? cosineSimilarity(qEmb, c.embedding) : 0`).  The similarity
function is a parameter because the source computes it in floating point:
instantiating `sim := cosineSimilarity Real.sqrt` recovers the source's
composition, and the ordering claims hold for every `sim`. -/
def scoreOf [Zero α] (sim : List α → List α → α) (qEmb : List α) (c : Chunk α) : α :=
  match c.embedding with
  | some e => sim qEmb e
  | none => 0

/-- `ask.js` `safeSnippet`. -/
def safeSnippet (text : Str) (maxLength : ℕ) : Str :=
  if text = [] then []
  else if text.length ≤ maxLength then text
  else text.take maxLength ++ "...".toList

/-- Original positions attached to a list (for expressing the stability of
the JS sort). -/
def withIdxFrom : ℕ → List β → List (ℕ × β)
  | _, [] => []
  | i, x :: xs => (i, x) :: withIdxFrom (i + 1) xs

/-- JS `Array#sort` with the comparator `(a, b) => b.score - a.score` is a
stable sort by score descending (ECMAScript guarantees sort stability).  On
position-tagged elements a stable sort by score descending coincides with any
sort by the total order `scoreLE`: strictly higher score first, original
position order on equal scores. -/
def scoreLE [LinearOrder α] (x y : ℕ × Chunk α × α) : Prop :=
  y.2.2 < x.2.2 ∨ (x.2.2 = y.2.2 ∧ x.1 ≤ y.1)

instance [LinearOrder α] : DecidableRel (scoreLE (α := α)) := fun x y =>
  inferInstanceAs (Decidable (y.2.2 < x.2.2 ∨ (x.2.2 = y.2.2 ∧ x.1 ≤ y.1)))

instance [LinearOrder α] : IsTotal (ℕ × Chunk α × α) scoreLE where
  total x y := by
    rcases lt_trichotomy x.2.2 y.2.2 with h | h | h
    · exact Or.inr (Or.inl h)
    · rcases Nat.le_total x.1 y.1 with h2 | h2
      · exact Or.inl (Or.inr ⟨h, h2⟩)
      · exact Or.inr (Or.inr ⟨h.symm, h2⟩)
    · exact Or.inl (Or.inl h)

instance [LinearOrder α] : IsTrans (ℕ × Chunk α × α) scoreLE where
  trans x y z hxy hyz := by
    rcases hxy with h1 | ⟨h1, h1i⟩
    · rcases hyz with h2 | ⟨h2, _⟩
      · exact Or.inl (lt_trans h2 h1)
      · exact Or.inl (h2 ▸ h1)
    · rcases hyz with h2 | ⟨h2, h2i⟩
      · exact Or.inl (h1 ▸ h2)
      · exact Or.inr ⟨h1.trans h2, le_trans h1i h2i⟩

/-- The pure core of `ask.js` `retrieveTopK` after its two network calls
(`ensureBundleEmbeddings` and the query embedding `qEmb`): score every chunk
(missing embeddings score `0`), stable-sort by score descending, truncate to
`k`.  This variant keeps the original positions that express stability. -/
def retrieveTopKIdx [LinearOrder α] [Zero α] (sim : List α → List α → α)
    (chunks : List (Chunk α)) (qEmb : List α) (k : ℕ) : List (ℕ × Chunk α × α) :=
  ((withIdxFrom 0 (chunks.map (fun c => (c, scoreOf sim qEmb c)))).insertionSort
    scoreLE).take k

structure ScoredChunk (α : Type) where
  chunk : Chunk α
  score : α
  snippet : Str
deriving DecidableEq, Repr

/-- `ask.js` `retrieveTopK` result entries
(`{ chunk, score, snippet: safeSnippet(chunk.text, 600) }`). -/
def retrieveTopK [LinearOrder α] [Zero α] (sim : List α → List α → α)
    (chunks : List (Chunk α)) (qEmb : List α) (k : ℕ) : List (ScoredChunk α) :=
  (retrieveTopKIdx sim chunks qEmb k).map
    (fun x => ⟨x.2.1, x.2.2, safeSnippet x.2.1.text 600⟩)

/-! ### `ensureBundleEmbeddings` (`ask.js`) and `withRetry` (`embeddings.js`)

The external embedding capability is a parameter `embed`, indexed by a call
counter so the number of requests is observable; errors are `Except` values
(a JS `throw` across `await`).  Disk persistence (`saveBundle`) is I/O and
outside the model. -/

structure RBundle (α : Type) where
  chunks : List (Chunk α)
deriving DecidableEq, Repr

/-- `for (i = 0; i < n; i += BATCH) slice(i, i + BATCH)` with `BATCH = 16`.
Fuel-structural (each step consumes at least one element). -/
def batchesGo (n : ℕ) : ℕ → List β → List (List β)
  | 0, _ => []
  | _, [] => []
  | fuel + 1, l => l.take n :: batchesGo n fuel (l.drop n)

def batches16 (l : List β) : List (List β) := batchesGo 16 l.length l

/-- One `embed` call per batch; a failed call propagates immediately (the
`await` rethrows).  On success the embeddings for that batch are the returned
positions (`embs[j]` is `undefined` — here `none` — when the reply is shorter
than the batch). -/
def embedBatches (embed : ℕ → List Str → Except String (List (List α))) :
    List (List (Chunk α)) → ℕ → Except String (List (Option (List α))) × ℕ
  | [], c => (.ok [], c)
  | batch :: rest, c =>
    match embed c (batch.map (fun ch => ch.text)) with
    | .error err => (.error err, c + 1)
    | .ok embs =>
      match embedBatches embed rest (c + 1) with
      | (.error err, c2) => (.error err, c2)
      | (.ok more, c2) =>
        (.ok ((List.range batch.length).map (fun j => embs.get? j) ++ more), c2)

/-- Reattach freshly computed embeddings: the JS code mutates the chunk
objects shared between `chunksWithoutEmb` and `bundle.chunks`, assigning the
results positionally over the missing chunks in document order; here the
chunk list is rebuilt, replacing each `none` embedding with the next entry. -/
def attachEmbs : List (Chunk α) → List (Option (List α)) → List (Chunk α)
  | [], _ => []
  | c :: cs, es =>
    if c.embedding.isNone then
      match es with
      | e :: es2 => { c with embedding := e } :: attachEmbs cs es2
      | [] => c :: attachEmbs cs []
    else c :: attachEmbs cs es

/-- `ask.js` `ensureBundleEmbeddings`: filter the chunks with no embedding
(`!c.embedding`; note a present-but-empty embedding array is truthy), return
the bundle untouched if none are missing, else embed them in batches of 16.
Returns the result and the next value of the call counter. -/
def ensureBundleEmbeddings [DecidableEq α]
    (embed : ℕ → List Str → Except String (List (List α)))
    (b : RBundle α) (callIdx : ℕ) : Except String (RBundle α) × ℕ :=
  let missing := b.chunks.filter (fun c => c.embedding.isNone)
  if missing = [] then (.ok b, callIdx)
  else
    match embedBatches embed (batches16 missing) callIdx with
    | (.error e, c2) => (.error e, c2)
    | (.ok embs, c2) => (.ok ⟨attachEmbs b.chunks embs⟩, c2)

/-- `embeddings.js` `withRetry`, as a pure simulation: `outcomes j` is the
result of the `j`-th call of `fn` (0-based, so the JS `attempt` counter is
`j + 1`); `remaining` is the number of retries still allowed.  Returns the
final result, the number of calls made, and the total backoff delay in
milliseconds (`500 * 2 ** (attempt - 1)` after each non-final failure). -/
def withRetryGo (outcomes : ℕ → Except String β) : ℕ → ℕ → Except String β × ℕ × ℕ
  | 0, callIdx =>
    match outcomes callIdx with
    | .ok v => (.ok v, 1, 0)
    | .error e => (.error e, 1, 0)
  | r + 1, callIdx =>
    match outcomes callIdx with
    | .ok v => (.ok v, 1, 0)
    | .error _ =>
      let w := withRetryGo outcomes r (callIdx + 1)
      (w.1, w.2.1 + 1, w.2.2 + 500 * 2 ^ callIdx)

/-- `withRetry(fn, retries = MAX_RETRIES)`; `MAX_RETRIES = 3`,
`RETRY_BACKOFF_MS = 500`. -/
def withRetry (outcomes : ℕ → Except String β) (retries : ℕ) :
    Except String β × ℕ × ℕ :=
  withRetryGo outcomes retries 0

/-! ### Concrete inputs for the retriever claims -/

def c5chunkA : Chunk ℝ := ⟨"bundle-z-chunk-001".toList, "alpha".toList, some [-1]⟩

def c5chunkB : Chunk ℝ := ⟨"bundle-z-chunk-002".toList, "beta".toList, none⟩

def c8bundle : RBundle ℚ :=
  ⟨[⟨"bundle-r-chunk-001".toList, "alpha".toList, none⟩,
    ⟨"bundle-r-chunk-002".toList, "beta".toList, none⟩]⟩

/-- An embedding capability that fails on its first call and succeeds on
every later call. -/
def c8embed : ℕ → List Str → Except String (List (List ℚ)) :=
  fun i texts => if i = 0 then .error "rate limited" else .ok (texts.map (fun _ => [1]))

def c9bundle : RBundle ℚ :=
  ⟨[⟨"bundle-r-chunk-001".toList, "alpha".toList, some [1]⟩,
    ⟨"bundle-r-chunk-002".toList, "beta".toList, some [0, 1]⟩]⟩

/-! ### Properties of the merge pass of the segmenter -/

theorem estimateTokens_le_of_length_le {s t : Str} (h : s.length ≤ t.length) :
    estimateTokens s ≤ estimateTokens t := by
  by_cases hs : s = []
  · simp [estimateTokens, hs]
  · have ht : t ≠ [] := by
      intro h0
      subst h0
      simp only [List.length_nil, Nat.le_zero] at h
      exact hs (List.length_eq_zero.mp h)
    simp only [estimateTokens, if_neg hs, if_neg ht]
    exact max_le_max le_rfl (Nat.div_le_div_right (show s.length + 3 ≤ t.length + 3 by omega))

theorem mergeSmallGo_all_ge (cs : List RawChunk) :
    ∀ cur : RawChunk, max 50 (500 / 5) ≤ estimateTokens cur.text →
      ∀ x ∈ mergeSmallGo cur cs, max 50 (500 / 5) ≤ estimateTokens x.text := by
  induction cs with
  | nil =>
    intro cur h x hx
    rw [mergeSmallGo, List.mem_singleton] at hx
    subst hx
    exact h
  | cons c rest ih =>
    intro cur h x hx
    rw [mergeSmallGo] at hx
    split at hx
    · refine ih _ (le_trans h (estimateTokens_le_of_length_le ?_)) x hx
      simp [List.length_append]
    · rcases List.mem_cons.mp hx with h1 | h2
      · subst h1; exact h
      · rename_i hcond
        exact ih c (Nat.not_lt.mp hcond) x h2

theorem mergeSmallGo_tail_ge (cs : List RawChunk) :
    ∀ cur : RawChunk, ∀ x ∈ (mergeSmallGo cur cs).drop 1,
      max 50 (500 / 5) ≤ estimateTokens x.text := by
  induction cs with
  | nil => intro cur x hx; simp [mergeSmallGo] at hx
  | cons c rest ih =>
    intro cur x hx
    rw [mergeSmallGo] at hx
    split at hx
    · exact ih _ x hx
    · rename_i hcond
      simp only [List.drop_succ_cons, List.drop_zero] at hx
      exact mergeSmallGo_all_ge rest c (Nat.not_lt.mp hcond) x hx

theorem mergeSmall_tail_ge (cs : List RawChunk) :
    ∀ x ∈ (mergeSmall cs).drop 1, max 50 (500 / 5) ≤ estimateTokens x.text := by
  cases cs with
  | nil => intro x hx; simp [mergeSmall] at hx
  | cons c rest => exact mergeSmallGo_tail_ge rest c

/-! ### Claim C2 -/

/-- C2 (code bug): the segmenter's offset invariant
`0 <= start_char <= end_char <= len(document)` fails.  On the concrete
document `"Hello  there. Hello there."` (26 characters) the whitespace
collapse of `splitIntoSentences` turns the first sentence into
`"Hello there."`, which is not found at the start of the raw document; the
offset search instead finds the later duplicate at index 14, so the single
produced chunk spans `[14, 39)` — `end_char = 39` exceeds the document length,
and `doc[14..26]` does not reconstruct the chunk text. -/
theorem c2_offsets_violated :
    chunkText c2doc {} = [⟨"Hello there. Hello there.".toList, 14, 39⟩] ∧
    c2doc.length = 26 := by decide

/-! ### Claim C7 -/

set_option maxRecDepth 40000

/-- C7 (counterexample): with caller-supplied `targetTokens = 1000` the claim
says any non-initial chunk with fewer than `max(50, 1000/5) = 200` estimated
tokens is merged into its predecessor; but on `c7doc` the second chunk has 100
estimated tokens (< 200) and survives unmerged, because the code computes the
threshold from the module constant `500`, not from the caller's target. -/
theorem c7_counterexample :
    (chunkText c7doc { targetTokens := some 1000 }).length = 2 ∧
    estimateTokens ((chunkText c7doc { targetTokens := some 1000 }).getD 1 ⟨[], 0, 0⟩).text
      < max 50 (1000 / 5) := by decide

/-- C7 (amended): the post-processing step merges any chunk whose estimated
token count is below `max(50, 500/5) = 100` into the preceding chunk (updating
its end offset), except a single initial chunk; the threshold comes from the
module default `500` and is independent of the caller's `targetTokens`.
Consequently every chunk after the first in the output of `chunkText` has at
least `max(50, 500/5)` estimated tokens. -/
theorem c7_merge_threshold_amended (text : Str) (options : ChunkOptions) :
    ∀ c ∈ (chunkText text options).drop 1, max 50 (500 / 5) ≤ estimateTokens c.text := by
  intro c hc
  simp only [chunkText] at hc
  split at hc
  · simp at hc
  · exact mergeSmall_tail_ge _ c hc

/-- C7 (witness): the amended theorem applied to the concrete document
`c7doc` with default options, at its second output chunk. -/
theorem c7_merge_threshold_amended_witness :
    max 50 (500 / 5) ≤ estimateTokens ((chunkText c7doc {}).getD 1 ⟨[], 0, 0⟩).text := by
  have hmem : (chunkText c7doc {}).getD 1 ⟨[], 0, 0⟩ ∈ (chunkText c7doc {}).drop 1 := by
    decide
  exact c7_merge_threshold_amended c7doc {} _ hmem

/-! ### Claim C1 -/

/-- C1: for every bundle with a chunks array and every answer string,
`verifyResponseAgainstBundle` reports `ok = true` exactly when
`unknown_chunk_ids`, `missing_snippet_matches` and `potential_hallucinations`
are all empty.  This holds for every option record: on the
`failOnUnknownChunkId` early return, `ok` is `false` while
`unknown_chunk_ids` is non-empty and the other two lists are empty. -/
theorem c1_ok_iff_no_findings (b : VBundle) (responseText : Str) (opts : VOptions) :
    (verifyResponseAgainstBundle b responseText opts).ok = true ↔
      ((verifyResponseAgainstBundle b responseText opts).unknown_chunk_ids = [] ∧
       (verifyResponseAgainstBundle b responseText opts).missing_snippet_matches = [] ∧
       (verifyResponseAgainstBundle b responseText opts).potential_hallucinations = []) := by
  unfold verifyResponseAgainstBundle
  dsimp only
  split
  · rename_i h
    constructor
    · intro hok; exact absurd hok (by simp)
    · rintro ⟨h1, -, -⟩; exact absurd h1 h.2
  · rename_i h
    dsimp only
    split
    · rename_i h2
      constructor
      · intro hok; exact absurd hok (by simp)
      · rintro ⟨h1, hm, hh⟩
        rcases h2 with hu | hm2 | hh2
        · exact absurd h1 hu
        · exact absurd hm hm2
        · exact absurd hh hh2
    · rename_i h2
      push_neg at h2
      exact ⟨fun _ => ⟨h2.1, h2.2.1, h2.2.2⟩, fun _ => rfl⟩

/-! ### Claim C4 -/

/-- C4 (code bug): the claim says a sentence is flagged as a potential
hallucination iff it contains no chunk-identifier token and contains a legal
trigger keyword — in particular a sentence containing a chunk id is never
flagged.  But `CHUNK_ID_REGEX` is a `/g` regex used with `.test()` inside the
sentence loop, so its `lastIndex` persists between sentences: testing the
first sentence of `c4answer` finds the id ending at index 40, and the test of
the second sentence then starts at index 40, missing that sentence's id at
index 0.  The second sentence contains both the id and the keyword
`indemnify` and is flagged anyway. -/
theorem c4_cited_sentence_flagged :
    (verifyResponseAgainstBundle c4bundle c4answer {}).potential_hallucinations =
      [(c4sentence2, "indemnify".toList)] ∧
    containsSub c4sentence2 "bundle-a-chunk-001".toList = true ∧
    c4sentence2 ∈ splitSentencesV c4answer := by decide

/-! ### Claim C10 -/

/-- C10: with an empty retrieved-identifier list, `verifyQAAnswer` always
reports `cites_retrieved = false` and overall `ok = false`, for every bundle,
answer text and option record — even when the base verification passes — since
the snippet-fallback path requires a non-empty retrieved list. -/
theorem c10_empty_retrieved_never_ok (b : VBundle) (answerText : Str) (opts : VOptions) :
    (verifyQAAnswer b answerText [] opts).cites_retrieved = false ∧
    (verifyQAAnswer b answerText [] opts).result.ok = false := by
  simp [verifyQAAnswer]

/-! ### Cosine similarity lemmas (claim C6) -/

theorem specNormSq_cons [Field α] (x : α) (xs : List α) :
    specNormSq (x :: xs) = x * x + specNormSq xs := by
  simp [specNormSq, specDot]

theorem cosAcc_na [Field α] : ∀ a b : List α, (cosAcc a b).2.1 = specNormSq a := by
  intro a
  induction a with
  | nil =>
    intro b
    simp [cosAcc, specNormSq, specDot]
  | cons x xs ih =>
    intro b
    cases b with
    | nil => rw [specNormSq_cons]; simp only [cosAcc, ih]; ring
    | cons y ys => rw [specNormSq_cons]; simp only [cosAcc, ih]; ring

theorem cosAcc_fst [Field α] :
    ∀ a b : List α, a.length = b.length → (cosAcc a b).1 = specDot a b := by
  intro a
  induction a with
  | nil =>
    intro b h
    simp [cosAcc, specDot]
  | cons x xs ih =>
    intro b h
    cases b with
    | nil => simp at h
    | cons y ys =>
      simp only [cosAcc, ih ys (by simpa using h), specDot, List.zipWith_cons_cons,
        List.sum_cons]
      ring

theorem cosAcc_nb [Field α] :
    ∀ a b : List α, a.length = b.length → (cosAcc a b).2.2 = specNormSq b := by
  intro a
  induction a with
  | nil =>
    intro b h
    have : b = [] := List.length_eq_zero.mp h.symm
    subst this
    simp [cosAcc, specNormSq, specDot]
  | cons x xs ih =>
    intro b h
    cases b with
    | nil => simp at h
    | cons y ys =>
      rw [specNormSq_cons]
      simp only [cosAcc, ih ys (by simpa using h)]
      ring

theorem specNormSq_nonneg [LinearOrderedField α] (a : List α) : 0 ≤ specNormSq a := by
  induction a with
  | nil => simp [specNormSq, specDot]
  | cons x xs ih =>
    rw [specNormSq_cons]
    exact add_nonneg (mul_self_nonneg x) ih

theorem specNormSq_replicate_zero [Field α] (n : ℕ) :
    specNormSq (List.replicate n (0 : α)) = 0 := by
  induction n with
  | zero => simp [specNormSq, specDot]
  | succ m ih => rw [List.replicate_succ, specNormSq_cons, ih]; ring

/-! ### Claim C6 -/

/-- C6 (counterexample): on the unequal-length pair `a = [1]`, `b = [1, 1]`
both cosine implementations return `1`, but the claimed value
`dot(a,b) / (||a|| * ||b||)` with both norms over the full vectors (the
shorter vector zero-padded, which changes neither dot nor norms) is
`1 / sqrt 2 ≠ 1`: `ask.js` accumulates `nb` only over `a`'s indices, and
`embeddings.js` truncates both vectors to the shorter length. -/
theorem c6_counterexample :
    cosineSimilarity Real.sqrt [(1 : ℝ)] [1, 1] = 1 ∧
    cosineSimilarityE Real.sqrt [(1 : ℝ)] [1, 1] = 1 ∧
    specDot [(1 : ℝ), 0] [1, 1] /
      (Real.sqrt (specNormSq [(1 : ℝ), 0]) * Real.sqrt (specNormSq [(1 : ℝ), 1])) ≠ 1 := by
  refine ⟨?_, ?_, ?_⟩
  · unfold cosineSimilarity
    norm_num [cosAcc, Real.sqrt_one]
  · unfold cosineSimilarityE cosineSimilarity
    norm_num [cosAcc, Real.sqrt_one]
  · have hd : specDot [(1 : ℝ), 0] [1, 1] = 1 := by norm_num [specDot]
    have ha : specNormSq [(1 : ℝ), 0] = 1 := by norm_num [specNormSq, specDot]
    have hb : specNormSq [(1 : ℝ), 1] = 2 := by norm_num [specNormSq, specDot]
    rw [hd, ha, hb, Real.sqrt_one, one_mul, one_div]
    intro hcontra
    rw [inv_eq_one] at hcontra
    have := Real.sqrt_eq_one.mp hcontra
    norm_num at this

/-- C6 (amended): for every pair of EQUAL-LENGTH real vectors,
`cosineSimilarity` returns `dot(a,b) / (sqrt ||a||^2 * sqrt ||b||^2)` with
both norms over the full vector, returns exactly `0` when either norm is
zero, and otherwise divides by a provably non-zero denominator (no division
by zero, no NaN); a zero vector of any length against anything scores exactly
`0`; and on equal lengths the `embeddings.js` variant agrees with the
`ask.js` one. -/
theorem c6_cosine_guarded_amended :
    (∀ a b : List ℝ, a.length = b.length →
      (cosineSimilarity Real.sqrt a b =
        if specNormSq a = 0 ∨ specNormSq b = 0 then 0
        else specDot a b / (Real.sqrt (specNormSq a) * Real.sqrt (specNormSq b))) ∧
      (specNormSq a ≠ 0 → specNormSq b ≠ 0 →
        Real.sqrt (specNormSq a) * Real.sqrt (specNormSq b) ≠ 0)) ∧
    (∀ (n : ℕ) (b : List ℝ), cosineSimilarity Real.sqrt (List.replicate n 0) b = 0) ∧
    (∀ a b : List ℝ, a.length = b.length →
      cosineSimilarityE Real.sqrt a b = cosineSimilarity Real.sqrt a b) := by
  refine ⟨fun a b h => ⟨?_, ?_⟩, fun n b => ?_, fun a b h => ?_⟩
  · unfold cosineSimilarity
    rw [cosAcc_fst a b h, cosAcc_na a b, cosAcc_nb a b h]
  · intro hna hnb
    have h1 : Real.sqrt (specNormSq a) ≠ 0 := by
      rw [Real.sqrt_ne_zero']
      exact lt_of_le_of_ne (specNormSq_nonneg a) (Ne.symm hna)
    have h2 : Real.sqrt (specNormSq b) ≠ 0 := by
      rw [Real.sqrt_ne_zero']
      exact lt_of_le_of_ne (specNormSq_nonneg b) (Ne.symm hnb)
    exact mul_ne_zero h1 h2
  · unfold cosineSimilarity
    rw [if_pos (Or.inl ((cosAcc_na (List.replicate n 0) b).trans
      (specNormSq_replicate_zero n)))]
  · unfold cosineSimilarityE
    rw [show a.take (min a.length b.length) = a by
          rw [h, min_self, ← h]; exact List.take_length a,
        show b.take (min a.length b.length) = b by
          rw [h, min_self]; exact List.take_length b]

/-- C6 (witness): the amended theorem applied at the concrete equal-length
pair `[1, 0]`, `[0, 1]`, whose norms are non-zero. -/
theorem c6_cosine_guarded_amended_witness :
    (cosineSimilarity Real.sqrt [(1 : ℝ), 0] [0, 1] =
      if specNormSq [(1 : ℝ), 0] = 0 ∨ specNormSq [(0 : ℝ), 1] = 0 then 0
      else specDot [(1 : ℝ), 0] [0, 1] /
        (Real.sqrt (specNormSq [(1 : ℝ), 0]) * Real.sqrt (specNormSq [(0 : ℝ), 1]))) ∧
    Real.sqrt (specNormSq [(1 : ℝ), 0]) * Real.sqrt (specNormSq [(0 : ℝ), 1]) ≠ 0 :=
  ⟨(c6_cosine_guarded_amended.1 [(1 : ℝ), 0] [0, 1] rfl).1,
   (c6_cosine_guarded_amended.1 [(1 : ℝ), 0] [0, 1] rfl).2
     (by norm_num [specNormSq, specDot]) (by norm_num [specNormSq, specDot])⟩

/-! ### Retrieval ordering lemmas (claims C3, C5) -/

theorem withIdxFrom_fst_ge {β : Type} :
    ∀ (l : List β) (j : ℕ), ∀ y ∈ withIdxFrom j l, j ≤ y.1 := by
  intro l
  induction l with
  | nil => intro j y hy; simp [withIdxFrom] at hy
  | cons x xs ih =>
    intro j y hy
    rw [withIdxFrom] at hy
    rcases List.mem_cons.mp hy with h | h
    · subst h; exact le_rfl
    · exact le_trans (Nat.le_succ j) (ih (j + 1) y h)

theorem withIdxFrom_pairwise_ne {β : Type} :
    ∀ (l : List β) (j : ℕ),
      List.Pairwise (fun x y : ℕ × β => x.1 ≠ y.1) (withIdxFrom j l) := by
  intro l
  induction l with
  | nil => intro j; simp [withIdxFrom]
  | cons x xs ih =>
    intro j
    rw [withIdxFrom]
    refine List.Pairwise.cons ?_ (ih (j + 1))
    intro y hy
    exact Nat.ne_of_lt (lt_of_lt_of_le (Nat.lt_succ_self j)
      (withIdxFrom_fst_ge xs (j + 1) y hy))

theorem withIdxFrom_map_snd {β : Type} :
    ∀ (l : List β) (j : ℕ), (withIdxFrom j l).map Prod.snd = l := by
  intro l
  induction l with
  | nil => intro j; simp [withIdxFrom]
  | cons x xs ih => intro j; rw [withIdxFrom, List.map_cons, ih (j + 1)]

theorem take_pref_succ {β : Type} (l : List β) (k : ℕ) : l.take k <+: l.take (k + 1) := by
  refine ⟨(l.take (k + 1)).drop k, ?_⟩
  have h1 : (l.take (k + 1)).take k = l.take k := by
    rw [List.take_take]
    have : min k (k + 1) = k := by omega
    rw [this]
  rw [← h1, List.take_append_drop]

theorem pref_map {β γ : Type} (f : β → γ) {l1 l2 : List β} (h : l1 <+: l2) :
    l1.map f <+: l2.map f := by
  obtain ⟨t, ht⟩ := h
  exact ⟨t.map f, by rw [← List.map_append, ht]⟩

/-- The stable descending sort of the scored chunks is pairwise-strict: any
earlier element has a strictly higher score, or an equal score and a strictly
smaller original position. -/
theorem retrieveTopKIdx_pairwise [LinearOrder α] [Zero α]
    (sim : List α → List α → α) (chunks : List (Chunk α)) (qEmb : List α) (k : ℕ) :
    List.Pairwise
      (fun x y : ℕ × Chunk α × α => y.2.2 < x.2.2 ∨ (x.2.2 = y.2.2 ∧ x.1 < y.1))
      (retrieveTopKIdx sim chunks qEmb k) := by
  unfold retrieveTopKIdx
  have hsorted : List.Pairwise scoreLE
      ((withIdxFrom 0 (chunks.map (fun c => (c, scoreOf sim qEmb c)))).insertionSort
        scoreLE) :=
    List.sorted_insertionSort scoreLE _
  have hperm := List.perm_insertionSort scoreLE
    (withIdxFrom 0 (chunks.map (fun c => (c, scoreOf sim qEmb c))))
  have hne : List.Pairwise (fun x y : ℕ × Chunk α × α => x.1 ≠ y.1)
      ((withIdxFrom 0 (chunks.map (fun c => (c, scoreOf sim qEmb c)))).insertionSort
        scoreLE) :=
    (hperm.pairwise_iff (fun h => h.symm)).mpr (withIdxFrom_pairwise_ne _ 0)
  refine List.Pairwise.sublist (List.take_sublist k _) ?_
  refine (hsorted.and hne).imp ?_
  intro a b hab
  obtain ⟨hle, hnei⟩ := hab
  unfold scoreLE at hle
  rcases hle with h | ⟨heq, hlei⟩
  · exact Or.inl h
  · exact Or.inr ⟨heq, lt_of_le_of_ne hlei hnei⟩

/-- Scores of the top-k result are non-increasing in sequence order. -/
theorem retrieveTopK_scores_desc [LinearOrder α] [Zero α]
    (sim : List α → List α → α) (chunks : List (Chunk α)) (qEmb : List α) (k : ℕ) :
    List.Pairwise (fun x y : ScoredChunk α => y.score ≤ x.score)
      (retrieveTopK sim chunks qEmb k) := by
  unfold retrieveTopK
  refine List.pairwise_map.mpr ?_
  refine (retrieveTopKIdx_pairwise sim chunks qEmb k).imp ?_
  intro a b hab
  rcases hab with h | ⟨heq, _⟩
  · exact le_of_lt h
  · exact le_of_eq heq.symm

/-- Every result entry's score is the score its chunk was assigned; in
particular a chunk with no embedding scores exactly `0`. -/
theorem retrieveTopK_score_eq [LinearOrder α] [Zero α]
    (sim : List α → List α → α) (chunks : List (Chunk α)) (qEmb : List α) (k : ℕ) :
    ∀ x ∈ retrieveTopK sim chunks qEmb k, x.score = scoreOf sim qEmb x.chunk := by
  intro x hx
  unfold retrieveTopK retrieveTopKIdx at hx
  obtain ⟨p, hp, hfx⟩ := List.mem_map.mp hx
  have hp2 := (List.take_sublist k _).subset hp
  have hp3 := (List.perm_insertionSort scoreLE _).subset hp2
  have hp4 : p.2 ∈ chunks.map (fun c => (c, scoreOf sim qEmb c)) := by
    have := List.mem_map_of_mem Prod.snd hp3
    rwa [withIdxFrom_map_snd] at this
  obtain ⟨c, _, hceq⟩ := List.mem_map.mp hp4
  subst hfx
  show p.2.2 = scoreOf sim qEmb p.2.1
  rw [← hceq]

/-! ### Claim C3 -/

/-- C3: for every bundle, query embedding and `k` (and every similarity
function, in particular the cosine of the source), `retrieveTopK` returns at
most `k` entries; the scores are non-increasing in sequence order; ties are
broken by original chunk position (earlier wins), expressed by the
pairwise-strict order on the position-tagged `retrieveTopKIdx`, of which
`retrieveTopK` is the projection; and the result for `k` is a prefix of the
result for `k + 1`. -/
theorem c3_topk_ordering [LinearOrder α] [Zero α] (sim : List α → List α → α)
    (chunks : List (Chunk α)) (qEmb : List α) (k : ℕ) :
    (retrieveTopK sim chunks qEmb k).length ≤ k ∧
    List.Pairwise (fun x y : ScoredChunk α => y.score ≤ x.score)
      (retrieveTopK sim chunks qEmb k) ∧
    List.Pairwise
      (fun x y : ℕ × Chunk α × α => y.2.2 < x.2.2 ∨ (x.2.2 = y.2.2 ∧ x.1 < y.1))
      (retrieveTopKIdx sim chunks qEmb k) ∧
    retrieveTopK sim chunks qEmb k =
      (retrieveTopKIdx sim chunks qEmb k).map
        (fun x => ⟨x.2.1, x.2.2, safeSnippet x.2.1.text 600⟩) ∧
    retrieveTopK sim chunks qEmb k <+: retrieveTopK sim chunks qEmb (k + 1) := by
  refine ⟨?_, retrieveTopK_scores_desc sim chunks qEmb k,
    retrieveTopKIdx_pairwise sim chunks qEmb k, rfl, ?_⟩
  · unfold retrieveTopK retrieveTopKIdx
    rw [List.length_map, List.length_take]
    exact min_le_left _ _
  · unfold retrieveTopK retrieveTopKIdx
    exact pref_map _ (take_pref_succ _ k)

/-! ### Claim C5 -/

/-- C5 (amended): in the output of `retrieveTopK`, every chunk with no
embedding receives score exactly `0`, and no chunk with no embedding is
ordered before a chunk with a strictly positive score; the function is total,
so missing embeddings never raise an error.  (The original claim — that a
no-embedding chunk sorts after EVERY embedded chunk — fails because an
embedded chunk can score negatively; see the counterexample.) -/
theorem c5_no_embedding_amended [LinearOrder α] [Zero α]
    (sim : List α → List α → α) (chunks : List (Chunk α)) (qEmb : List α) (k : ℕ) :
    (∀ x ∈ retrieveTopK sim chunks qEmb k,
      x.chunk.embedding = none → x.score = 0) ∧
    List.Pairwise
      (fun x y : ScoredChunk α => x.chunk.embedding = none → ¬ 0 < y.score)
      (retrieveTopK sim chunks qEmb k) := by
  have hzero : ∀ x ∈ retrieveTopK sim chunks qEmb k,
      x.chunk.embedding = none → x.score = 0 := by
    intro x hx hnone
    rw [retrieveTopK_score_eq sim chunks qEmb k x hx]
    unfold scoreOf
    rw [hnone]
  refine ⟨hzero, ?_⟩
  refine List.Pairwise.imp_of_mem ?_ (retrieveTopK_scores_desc sim chunks qEmb k)
  intro a b ha _ hle hnone hpos
  have h0 : a.score = 0 := hzero a ha hnone
  rw [h0] at hle
  exact absurd (lt_of_lt_of_le hpos hle) (lt_irrefl 0)

def c5wA : Chunk ℕ := ⟨"bundle-w-chunk-001".toList, "a".toList, some [1]⟩

def c5wB : Chunk ℕ := ⟨"bundle-w-chunk-002".toList, "b".toList, none⟩

/-- C5 (witness): the amended theorem applied to a concrete two-chunk list
over `ℕ` scores, at the no-embedding chunk sitting at position 1. -/
theorem c5_no_embedding_amended_witness :
    ((retrieveTopK (fun _ _ => 1) [c5wA, c5wB] [] 2).getD 1 ⟨c5wB, 7, []⟩).score = 0 := by
  have hmem : (retrieveTopK (fun _ _ => 1) [c5wA, c5wB] [] 2).getD 1 ⟨c5wB, 7, []⟩ ∈
      retrieveTopK (fun _ _ => (1 : ℕ)) [c5wA, c5wB] [] 2 := by decide
  have hnone : ((retrieveTopK (fun _ _ => (1 : ℕ)) [c5wA, c5wB] [] 2).getD 1
      ⟨c5wB, 7, []⟩).chunk.embedding = none := by decide
  exact (c5_no_embedding_amended (fun _ _ => 1) [c5wA, c5wB] [] 2).1 _ hmem hnone

theorem insertionSort_pair_swap [LinearOrder α] (x0 x1 : ℕ × Chunk α × α)
    (h : ¬ scoreLE x0 x1) : [x0, x1].insertionSort scoreLE = [x1, x0] := by
  simp only [List.insertionSort, List.orderedInsert]
  rw [if_neg h]

/-- C5 (counterexample): with the source's own similarity function
(`cosineSimilarity` over `ℝ`), a chunk whose embedding is `[-1]` scores
`-1 < 0` against the query embedding `[1]`, so the chunk WITH an embedding
sorts after the chunk with no embedding (score `0`): a no-embedding segment
is not ordered after every embedded segment. -/
theorem c5_counterexample :
    retrieveTopK (cosineSimilarity Real.sqrt) [c5chunkA, c5chunkB] [1] 2 =
      [⟨c5chunkB, 0, safeSnippet c5chunkB.text 600⟩,
       ⟨c5chunkA, -1, safeSnippet c5chunkA.text 600⟩] ∧
    c5chunkB.embedding = none ∧ c5chunkA.embedding = some [-1] := by
  refine ⟨?_, rfl, rfl⟩
  have hcos : cosineSimilarity Real.sqrt [(1 : ℝ)] [-1] = -1 := by
    unfold cosineSimilarity
    norm_num [cosAcc, Real.sqrt_one]
  have hsc : List.map
      (fun c => (c, scoreOf (cosineSimilarity Real.sqrt) [(1 : ℝ)] c))
      [c5chunkA, c5chunkB] = [(c5chunkA, -1), (c5chunkB, 0)] := by
    simp only [List.map_cons, List.map_nil]
    rw [show scoreOf (cosineSimilarity Real.sqrt) [(1 : ℝ)] c5chunkA = -1 by
          simp [scoreOf, c5chunkA, hcos],
        show scoreOf (cosineSimilarity Real.sqrt) [(1 : ℝ)] c5chunkB = 0 by
          simp [scoreOf, c5chunkB]]
  have hnot : ¬ scoreLE ((0 : ℕ), (c5chunkA, (-1 : ℝ))) (1, (c5chunkB, 0)) := by
    unfold scoreLE
    push_neg
    refine ⟨by norm_num, fun hcontra => ?_⟩
    norm_num at hcontra
  unfold retrieveTopK retrieveTopKIdx
  rw [hsc,
    show withIdxFrom 0 [(c5chunkA, (-1 : ℝ)), (c5chunkB, 0)] =
      [((0 : ℕ), (c5chunkA, (-1 : ℝ))), (1, (c5chunkB, 0))] by simp [withIdxFrom],
    insertionSort_pair_swap _ _ hnot]
  rfl

/-! ### Retry lemmas (claim C8) -/

theorem withRetryGo_calls_le {β : Type} (outcomes : ℕ → Except String β) :
    ∀ (r c : ℕ), (withRetryGo outcomes r c).2.1 ≤ r + 1 := by
  intro r
  induction r with
  | zero =>
    intro c
    unfold withRetryGo
    cases outcomes c <;> simp
  | succ m ih =>
    intro c
    unfold withRetryGo
    cases houtcome : outcomes c with
    | ok v => simp
    | error e =>
      dsimp only
      exact Nat.succ_le_succ (ih (c + 1))

theorem withRetryGo_all_fail {β : Type} (outcomes : ℕ → Except String β)
    (errOf : ℕ → String) (h : ∀ j, outcomes j = .error (errOf j)) :
    ∀ (r c : ℕ), withRetryGo outcomes r c =
      (.error (errOf (c + r)), r + 1, 500 * 2 ^ c * (2 ^ r - 1)) := by
  intro r
  induction r with
  | zero =>
    intro c
    unfold withRetryGo
    rw [h c]
    simp
  | succ m ih =>
    intro c
    unfold withRetryGo
    rw [h c]
    dsimp only
    rw [ih (c + 1)]
    have e1 : c + 1 + m = c + (m + 1) := by omega
    have e2 : 500 * 2 ^ (c + 1) * (2 ^ m - 1) + 500 * 2 ^ c =
        500 * 2 ^ c * (2 ^ (m + 1) - 1) := by
      rw [pow_succ 2 c, pow_succ 2 m]
      obtain ⟨v, hv⟩ : ∃ v, 2 ^ m = v + 1 :=
        ⟨2 ^ m - 1, by have := Nat.one_le_two_pow (n := m); omega⟩
      rw [hv]
      have hs1 : v + 1 - 1 = v := by omega
      have hs2 : (v + 1) * 2 - 1 = 2 * v + 1 := by omega
      rw [hs1, hs2]
      ring
    rw [e1, e2]

/-! ### Claim C8 -/

/-- C8 (counterexample): an embedding capability that fails on its first call
and would succeed on any retry.  The claim says embedding errors inside
`ensureBundleEmbeddings` are retried up to 3 attempts with backoff before a
fatal error, and that a persistent single-segment failure leaves other
segments embedded.  Instead the code calls the capability exactly once (the
next call index is `1`), propagates the error fatally, and no chunk of the
batch receives an embedding (no bundle is returned at all). -/
theorem c8_counterexample :
    ensureBundleEmbeddings c8embed c8bundle 0 = (.error "rate limited", 1) ∧
    c8embed 1 (c8bundle.chunks.map (fun c => c.text)) = .ok [[1], [1]] :=
  ⟨rfl, rfl⟩

/-- C8 (amended): embedding-capability errors in `ensureBundleEmbeddings` are
not retried: if any chunk lacks an embedding and the capability fails on the
first batch, the error propagates after exactly one call and the whole call
aborts with no partial result.  The separate `withRetry` helper of
`embeddings.js` (not used by `ensureBundleEmbeddings`) makes at most
`retries + 1` calls, and when every call fails it returns the last error
after `retries + 1` calls with total backoff delay `500 * (2^retries - 1)` ms
— for its default `retries = 3`: 4 calls and 3500 ms (delays 500, 1000,
2000). -/
theorem c8_no_retry_in_ensure_amended {α β : Type} [DecidableEq α] :
    (∀ (embed : ℕ → List Str → Except String (List (List α)))
        (b : RBundle α) (callIdx : ℕ) (err : String),
        b.chunks.filter (fun c => c.embedding.isNone) ≠ [] →
        embed callIdx
          (((b.chunks.filter (fun c => c.embedding.isNone)).take 16).map
            (fun c => c.text)) = .error err →
        ensureBundleEmbeddings embed b callIdx = (.error err, callIdx + 1)) ∧
    (∀ (outcomes : ℕ → Except String β) (retries : ℕ),
        (withRetry outcomes retries).2.1 ≤ retries + 1) ∧
    (∀ (outcomes : ℕ → Except String β) (errOf : ℕ → String),
        (∀ j, outcomes j = .error (errOf j)) →
        withRetry outcomes 3 = (.error (errOf 3), 4, 3500)) := by
  refine ⟨?_, fun outcomes retries => withRetryGo_calls_le outcomes retries 0,
    fun outcomes errOf h => ?_⟩
  · intro embed b callIdx err hne hfail
    unfold ensureBundleEmbeddings
    rw [if_neg hne]
    rcases hm : b.chunks.filter (fun c => c.embedding.isNone) with _ | ⟨c, cs⟩
    · exact absurd hm hne
    · rw [hm] at hfail ⊢
      have hb : batches16 (c :: cs) =
          (c :: cs).take 16 :: batchesGo 16 cs.length ((c :: cs).drop 16) := rfl
      rw [hb]
      unfold embedBatches
      rw [hfail]
  · unfold withRetry
    rw [withRetryGo_all_fail outcomes errOf h 3 0]
    norm_num

def c8witnessEmbed : ℕ → List Str → Except String (List (List ℚ)) :=
  fun _ _ => .error "backend down"

/-- C8 (witness): the amended theorem applied to the concrete bundle
`c8bundle` with an always-failing capability, and to the all-failing retry
oracle. -/
theorem c8_no_retry_in_ensure_amended_witness :
    ensureBundleEmbeddings c8witnessEmbed c8bundle 0 = (.error "backend down", 1) ∧
    (withRetry (fun _ => (.error "backend down" : Except String ℕ)) 3).2.1 ≤ 4 ∧
    withRetry (fun _ => (.error "backend down" : Except String ℕ)) 3 =
      (.error "backend down", 4, 3500) :=
  ⟨(c8_no_retry_in_ensure_amended (β := ℕ)).1 c8witnessEmbed c8bundle 0
      "backend down" (by decide) rfl,
   (c8_no_retry_in_ensure_amended (α := ℚ)).2.1 _ 3,
   (c8_no_retry_in_ensure_amended (α := ℚ)).2.2 _ (fun _ => "backend down")
      (fun _ => rfl)⟩

/-! ### Claim C9 -/

/-- C9: `ensureBundleEmbeddings` is idempotent on the in-memory bundle: when
every chunk already has an embedding, it issues no embedding requests (the
call counter is unchanged) and returns the bundle itself unchanged — so a
second call has exactly the same (absent) effect as the first. -/
theorem c9_ensure_idempotent {α : Type} [DecidableEq α]
    (embed : ℕ → List Str → Except String (List (List α))) (b : RBundle α)
    (callIdx : ℕ) (h : ∀ c ∈ b.chunks, c.embedding.isSome) :
    ensureBundleEmbeddings embed b callIdx = (.ok b, callIdx) := by
  unfold ensureBundleEmbeddings
  have hnil : b.chunks.filter (fun c => c.embedding.isNone) = [] := by
    rw [List.filter_eq_nil_iff]
    intro c hc
    have hs := h c hc
    cases hce : c.embedding with
    | none => rw [hce] at hs; simp at hs
    | some v => simp [hce]
  rw [if_pos hnil]

/-- C9 (witness): a bundle all of whose chunks have embeddings is returned
unchanged with no capability calls, even under an always-failing capability. -/
theorem c9_ensure_idempotent_witness :
    ensureBundleEmbeddings c8witnessEmbed c9bundle 5 = (.ok c9bundle, 5) :=
  c9_ensure_idempotent c8witnessEmbed c9bundle 5 (by decide)

end LexiClear
